import Mathlib

/-!
Shallow embedding of the Renko-brick trend tracker of `src/open_trader.py`
(class `OpenTrader`, with its data model `CandleStick`, `RenkoState`,
`RenkoBrick`, `MarketTrend`, `MarketSignal`).

Python `Decimal` values are modelled as exact rationals (`ℚ`); Python
`datetime` values are modelled by their epoch timestamp (`ℤ`); the
`deque(maxlen=MAXLEN)` bar buffer is modelled as a list on which every
`extend` keeps only the last `MAXLEN` elements.  Fallible paths (the
`statistics.mean([])` exception reachable from `feed`) are modelled with
`Except`.
-/

/-- Enum `MarketSignal` of `open_trader.py`. -/
inductive MarketSignal where
  | hold
  | buy
  | sell
deriving DecidableEq, Repr

/-- Enum `MarketTrend` of `open_trader.py`. -/
inductive MarketTrend where
  | up
  | down
deriving DecidableEq, Repr

/-- Method `MarketTrend.as_signal`: BUY for an up trend, SELL for a down trend. -/
def MarketTrend.as_signal : MarketTrend → MarketSignal
  | .up => .buy
  | .down => .sell

/-- The `REVERSE` dictionary of `open_trader.py`. -/
def REVERSE : MarketTrend → MarketTrend
  | .up => .down
  | .down => .up

/-- Constant `MAXLEN = 15 * 30`, the bar-buffer capacity. -/
def MAXLEN : ℕ := 15 * 30

/-- Constant `PRECISION = Decimal(".0001")`, the quantization step and minimum tick. -/
def PRECISION : ℚ := 1 / 10000

/-- Python `int()` applied to a (rational) quotient: truncation toward zero. -/
def truncInt (q : ℚ) : ℤ :=
  if 0 ≤ q then ((q.num.toNat / q.den : ℕ) : ℤ)
  else -(((-q.num).toNat / q.den : ℕ) : ℤ)

/-- Round half to even to an integer, the rounding mode of Python's
`Decimal.quantize` under the default context. -/
def rhe (q : ℚ) : ℤ :=
  let n := ⌊q⌋
  let r := q - n
  if r < 1 / 2 then n
  else if 1 / 2 < r then n + 1
  else if n % 2 = 0 then n else n + 1

/-- Python `Decimal.quantize(PRECISION)`: round to a multiple of `1/10000`
(half to even). -/
def quantize4 (q : ℚ) : ℚ := (rhe (q * 10000) : ℚ) / 10000

/-- Record `CandleStick` of `open_trader.py` (one OHLCV bar). -/
@[ext]
structure CandleStick where
  timestamp : ℤ
  «open» : ℚ
  high : ℚ
  low : ℚ
  close : ℚ
  volume : ℚ := 0
  trades : ℤ := 0
deriving DecidableEq, Repr

/-- Record `RenkoBrick` of `open_trader.py`; `time` is the epoch timestamp of the
`datetime` field. -/
@[ext]
structure RenkoBrick where
  time : ℤ
  «open» : ℚ
  high : ℚ
  low : ℚ
  close : ℚ
  direction : MarketTrend
deriving DecidableEq, Repr

/-- Record `RenkoState` of `open_trader.py`; `last_index` is the epoch timestamp of
the `datetime` field. -/
@[ext]
structure RenkoState where
  last_index : ℤ := 0
  high : ℚ := 0
  low : ℚ := 0
  int_high : ℚ := 0
  int_low : ℚ := 0
  abs_high : ℚ := 0
  abs_low : ℚ := 0
deriving DecidableEq, Repr

/-- The state of an `OpenTrader` instance (`open_trader.py`). -/
@[ext]
structure OpenTrader where
  symbol : String
  data : List CandleStick := []
  brick_size : ℚ := PRECISION
  renko_state : RenkoState := {}
  bricks : List RenkoBrick := []
  trend : Option MarketTrend := none
  strength : ℕ := 0
  breakout : ℕ := 0
  interval : String := "1m"
deriving DecidableEq, Repr

/-- A freshly constructed `OpenTrader(symbol=...)` with all field defaults. -/
def mkTracker (symbol : String) : OpenTrader := { symbol := symbol }

/-- Python `deque(maxlen=MAXLEN).extend`: append, evicting oldest beyond capacity. -/
def capExtend (xs ys : List CandleStick) : List CandleStick :=
  let zs := xs ++ ys
  zs.drop (zs.length - MAXLEN)

/-- Python `int(math.log(x - 1, 3)) if x > 1 else 0` (the `zone_log` closure of
`OpenTrader.strategy_eval`): floor of the base-3 logarithm of `x - 1`,
written as a bounded count so that it evaluates structurally. -/
def zone_log (x : ℕ) : ℕ :=
  if 1 < x then ((List.range (x - 1)).filter (fun k => 3 ^ (k + 1) ≤ x - 1)).length
  else 0

/-- Method `OpenTrader.digest_data_point`: absorb one candlestick into the renko
construction state, emitting the (possibly empty) list of new bricks. -/
def digest_data_point (brick_size : ℚ) (st : RenkoState) (row : CandleStick) :
    List RenkoBrick × RenkoState :=
  let ih := max st.int_high row.high
  let il := min st.int_low row.low
  let ah := max ih st.abs_high
  let al := min il st.abs_low
  if st.high + brick_size ≤ row.close then
    let diff := (truncInt ((row.close - st.high) / brick_size) : ℚ) * brick_size
    ([{ time := st.last_index, «open» := st.high, high := ih, low := il,
        close := st.high + diff, direction := .up }],
     { last_index := row.timestamp, high := st.high + diff, low := st.high,
       int_high := row.close, int_low := row.close, abs_high := ah, abs_low := al })
  else if row.close ≤ st.low - brick_size then
    let diff := (truncInt ((st.low - row.close) / brick_size) : ℚ) * brick_size
    ([{ time := st.last_index, «open» := st.low, high := ih, low := il,
        close := st.low - diff, direction := .down }],
     { last_index := row.timestamp, high := st.low, low := st.low - diff,
       int_high := row.close, int_low := row.close, abs_high := ah, abs_low := al })
  else
    ([], { st with int_high := ih, int_low := il, abs_high := ah, abs_low := al })

/-- Method `OpenTrader.make_renko_bricks`: fold `digest_data_point` over a list of
candlesticks, concatenating the emitted bricks. -/
def make_renko_bricks (brick_size : ℚ) (st : RenkoState) :
    List CandleStick → List RenkoBrick × RenkoState
  | [] => ([], st)
  | s :: rest =>
    let d := digest_data_point brick_size st s
    let r := make_renko_bricks brick_size d.2 rest
    (d.1 ++ r.1, r.2)

/-- Method `OpenTrader.strategy_eval`: update trend/strength/breakout from one brick
and produce the market signal. -/
def strategy_eval (t : OpenTrader) (brick : RenkoBrick) : MarketSignal × OpenTrader :=
  let trend0 := match t.trend with
    | none => brick.direction
    | some tr => tr
  let sb : ℕ × ℕ :=
    if brick.direction = trend0 then (t.strength + 1, 0)
    else (t.strength, t.breakout + 1)
  let allowed := zone_log sb.1
  if allowed < sb.2 then
    let trend2 := REVERSE trend0
    (trend2.as_signal,
     { t with trend := some trend2, strength := sb.2, breakout := 0 })
  else
    (.hold, { t with trend := some trend0, strength := sb.1, breakout := sb.2 })

/-- The per-brick loop of `OpenTrader.feed`: append each brick to
`self.bricks`, run `strategy_eval`, and collect the signals. -/
def evalAll (t : OpenTrader) : List RenkoBrick → OpenTrader × List MarketSignal
  | [] => (t, [])
  | b :: bs =>
    let t1 := { t with bricks := t.bricks ++ [b] }
    let r := strategy_eval t1 b
    let rest := evalAll r.2 bs
    (rest.1, r.1 :: rest.2)

/-- The shared tail of `OpenTrader.feed` (after the timestamp filter /
calibration): extend the bar buffer, build bricks, evaluate each brick. -/
def processFeed (t : OpenTrader) (new_sticks : List CandleStick) :
    OpenTrader × List MarketSignal :=
  let data1 := capExtend t.data new_sticks
  let br := make_renko_bricks t.brick_size t.renko_state new_sticks
  evalAll { t with data := data1, renko_state := br.2 } br.1

/-- Method `OpenTrader.feed`.  On a tracker that already holds bars, incoming sticks
are filtered to strictly newer timestamps.  On a fresh tracker the brick size
is calibrated from this feed's sticks and the renko state is seeded from the
first stick; with an empty stick list this path raises (`statistics.mean`
of an empty sequence), modelled as `Except.error`. -/
def feed (t : OpenTrader) (sticks : List CandleStick) :
    Except String (OpenTrader × List MarketSignal) :=
  match t.data.getLast? with
  | some lastStick =>
    let new_sticks := sticks.filter (fun s => lastStick.timestamp < s.timestamp)
    if new_sticks.isEmpty then .ok (t, [])
    else .ok (processFeed t new_sticks)
  | none =>
    match sticks with
    | [] => .error "StatisticsError: mean requires at least one data point"
    | first :: _ =>
      let absolute_range := sticks.map (fun x => x.high - x.low)
      let half_average := max (absolute_range.sum / (absolute_range.length : ℚ) / 2) PRECISION
      let t1 : OpenTrader :=
        { t with
          brick_size := quantize4 half_average,
          renko_state :=
            { high := first.close, low := first.close,
              int_high := first.close, int_low := first.close,
              abs_high := first.high, abs_low := first.low,
              last_index := first.timestamp } }
      .ok (processFeed t1 sticks)

/-- Feeding a bar sequence split into successive chunks, one `feed` call per
chunk, concatenating the returned signals. -/
def feedChunks (t : OpenTrader) : List (List CandleStick) →
    Except String (OpenTrader × List MarketSignal)
  | [] => .ok (t, [])
  | c :: rest =>
    match feed t c with
    | .error e => .error e
    | .ok p =>
      match feedChunks p.1 rest with
      | .error e => .error e
      | .ok q => .ok (q.1, p.2 ++ q.2)

/-- Projection used to compare `feed` outcomes: number of bricks held by the
resulting tracker, `none` on error. -/
def bricksCount (r : Except String (OpenTrader × List MarketSignal)) : Option ℕ :=
  match r with
  | .ok (t, _) => some t.bricks.length
  | .error _ => none

/-!
Persistence (`OpenTrader.write_to` / `OpenTrader.read_from`).

`write_to` serializes the tracker with `model_dump_json`, whose
`Serializable.Config.json_encoders` passes every `Decimal` through
`val.quantize(PRECISION)` and every `datetime` through `isoformat` (the
latter round-trips exactly, so it is the identity in this model).
`read_from` parses the file back and overwrites the fresh tracker's
`__dict__` wholesale.  The net effect of a write/read round trip through
the same `symbol-interval-MAXLEN` key is therefore: every decimal field
quantized to `PRECISION`, everything else unchanged.  `write_to` refuses to
write when the bar buffer is empty, modelled by returning `none`.
-/

/-- The write/read image of one candlestick: decimals quantized. -/
def quantizeStick (s : CandleStick) : CandleStick :=
  { timestamp := s.timestamp, «open» := quantize4 s.«open», high := quantize4 s.high,
    low := quantize4 s.low, close := quantize4 s.close,
    volume := quantize4 s.volume, trades := s.trades }

/-- The write/read image of one brick: decimals quantized. -/
def quantizeBrick (b : RenkoBrick) : RenkoBrick :=
  { time := b.time, «open» := quantize4 b.«open», high := quantize4 b.high,
    low := quantize4 b.low, close := quantize4 b.close, direction := b.direction }

/-- The write/read image of the renko construction state: decimals quantized. -/
def quantizeState (st : RenkoState) : RenkoState :=
  { last_index := st.last_index, high := quantize4 st.high, low := quantize4 st.low,
    int_high := quantize4 st.int_high, int_low := quantize4 st.int_low,
    abs_high := quantize4 st.abs_high, abs_low := quantize4 st.abs_low }

/-- The write/read image of a whole tracker: decimals quantized, all other
fields (trend, strength, breakout, symbol, interval, timestamps) unchanged. -/
def quantizeTracker (t : OpenTrader) : OpenTrader :=
  { symbol := t.symbol, data := t.data.map quantizeStick,
    brick_size := quantize4 t.brick_size,
    renko_state := quantizeState t.renko_state,
    bricks := t.bricks.map quantizeBrick,
    trend := t.trend, strength := t.strength, breakout := t.breakout,
    interval := t.interval }

/-- Model of `t.write_to(cache)` followed by `t2.read_from(cache)` on a fresh tracker
with the same key: `none` when nothing was written (empty bar buffer),
otherwise the quantized snapshot. -/
def persistRoundTrip (t : OpenTrader) : Option OpenTrader :=
  if t.data.isEmpty then none else some (quantizeTracker t)

/-- A rational is representable at `PRECISION` (at most 4 decimal places). -/
def Dec4 (q : ℚ) : Prop := (q * 10000).den = 1

instance (q : ℚ) : Decidable (Dec4 q) := by unfold Dec4; infer_instance

/-- Every decimal field stored by `write_to` is representable at
`PRECISION`. -/
def Dec4Tracker (t : OpenTrader) : Prop :=
  Dec4 t.brick_size ∧
  (∀ s ∈ t.data, Dec4 s.«open» ∧ Dec4 s.high ∧ Dec4 s.low ∧ Dec4 s.close ∧ Dec4 s.volume) ∧
  (∀ b ∈ t.bricks, Dec4 b.«open» ∧ Dec4 b.high ∧ Dec4 b.low ∧ Dec4 b.close) ∧
  Dec4 t.renko_state.high ∧ Dec4 t.renko_state.low ∧
  Dec4 t.renko_state.int_high ∧ Dec4 t.renko_state.int_low ∧
  Dec4 t.renko_state.abs_high ∧ Dec4 t.renko_state.abs_low

instance (t : OpenTrader) : Decidable (Dec4Tracker t) := by
  unfold Dec4Tracker; infer_instance

/-!  Predicates and folds used by the stated properties. -/

/-- Folding `strategy_eval` over a brick sequence (state component only). -/
def evalFold (t : OpenTrader) (l : List RenkoBrick) : OpenTrader :=
  l.foldl (fun a b => (strategy_eval a b).2) t

/-- Invariant of the trend evaluator state: an unset trend comes with zeroed
counters, a set trend with positive strength, and the breakout counter never
exceeds the allowed zone of the current strength. -/
def EvalInv (t : OpenTrader) : Prop :=
  (t.trend = none → t.strength = 0 ∧ t.breakout = 0) ∧
  (t.trend ≠ none → 1 ≤ t.strength) ∧
  t.breakout ≤ zone_log t.strength

/-- Adjacency relation between consecutive emitted bricks: same-direction
neighbours chain `open = previous close` with strictly monotone closes, and
at a direction change the new brick reopens at the previous brick's open. -/
def brickPair (b b2 : RenkoBrick) : Prop :=
  (b2.direction = b.direction →
    b2.«open» = b.close ∧
    (b.direction = .up → b.close < b2.close) ∧
    (b.direction = .down → b2.close < b.close)) ∧
  (b2.direction ≠ b.direction → b2.«open» = b.«open»)

/-- Relation between the renko construction state and the most recently
emitted brick: the state's boundary prices are the brick's open/close. -/
def stAfter (b : RenkoBrick) (st : RenkoState) : Prop :=
  (b.direction = .up → st.high = b.close ∧ st.low = b.«open») ∧
  (b.direction = .down → st.high = b.«open» ∧ st.low = b.close)

/-!  Concrete fixtures used by witnesses and counterexamples. -/

/-- A renko state seeded at price 100 with unit boundaries. -/
def seededState : RenkoState := ⟨0, 100, 100, 100, 100, 100, 100⟩

/-- A bar whose close jumps two whole brick sizes above the boundary. -/
def jumpBar : CandleStick := ⟨1, 100, 102, 100, 102, 0, 0⟩

/-- A bar crossing one brick size upward. -/
def upBar : CandleStick := ⟨1, 100, 101, 100, 101, 0, 0⟩

/-- A bar crossing one brick size downward (relative to `seededState` after
`upBar`). -/
def downBar : CandleStick := ⟨2, 100, 100, 99, 99, 0, 0⟩

/-- First calibration bar of the split-feed counterexample (range 2). -/
def splitBarA : CandleStick := ⟨1, 100, 101, 99, 100, 0, 0⟩

/-- Second calibration bar of the split-feed counterexample (range 4). -/
def splitBarB : CandleStick := ⟨2, 100, 104, 100, 101, 0, 0⟩

/-- An evaluator in a mature UP trend: strength 9, no pending breakout. -/
def strongUpTrader : OpenTrader :=
  { mkTracker "X" with trend := some .up, strength := 9, breakout := 0 }

/-- A contrary (DOWN) brick fed to the evaluator. -/
def downBrick : RenkoBrick := ⟨0, 0, 0, 0, 0, .down⟩

/-- An UP brick, first brick ever seen by a fresh evaluator. -/
def upBrick : RenkoBrick := ⟨0, 0, 0, 0, 0, .up⟩

/-- A tracker holding one bar whose prices need 5 decimal places. -/
def fineGrainTracker : OpenTrader :=
  { mkTracker "A" with data := [⟨1, 1/20000, 1/20000, 1/20000, 1/20000, 0, 0⟩] }

/-- A tracker holding one bar with prices representable at `PRECISION`. -/
def coarseTracker : OpenTrader :=
  { mkTracker "A" with data := [⟨1, 100, 101, 99, 100, 0, 0⟩] }

/-- The tracker obtained by feeding a fresh tracker `"W"` the single bar
`splitBarA` (brick size calibrated to 1, renko state seeded at 100). -/
def calibratedTracker : OpenTrader :=
  { symbol := "W", data := [splitBarA], brick_size := 1,
    renko_state := ⟨1, 100, 100, 101, 99, 101, 99⟩, bricks := [], trend := none,
    strength := 0, breakout := 0, interval := "1m" }

/-!  Arithmetic helper lemmas. -/

lemma truncInt_eq (q : ℚ) (k : ℕ) (h1 : (k : ℚ) ≤ q) (h2 : q < (k : ℚ) + 1) :
    truncInt q = k := by
  have hq : 0 ≤ q := le_trans (by positivity) h1
  have hd : 0 < q.den := q.den_pos
  have hdq : (0 : ℚ) < (q.den : ℚ) := by exact_mod_cast hd
  have hnum : ((q.num.toNat : ℤ) : ℚ) = (q.num : ℚ) := by
    exact_mod_cast congrArg (fun z : ℤ => (z : ℚ)) (Int.toNat_of_nonneg (Rat.num_nonneg.mpr hq))
  have hA : (k : ℚ) * (q.den : ℚ) ≤ (q.num : ℚ) := by
    calc (k : ℚ) * (q.den : ℚ) ≤ q * (q.den : ℚ) :=
          mul_le_mul_of_nonneg_right h1 hdq.le
      _ = (q.num : ℚ) := Rat.mul_den_eq_num q
  have hB : (q.num : ℚ) < ((k : ℚ) + 1) * (q.den : ℚ) := by
    calc (q.num : ℚ) = q * (q.den : ℚ) := (Rat.mul_den_eq_num q).symm
      _ < ((k : ℚ) + 1) * (q.den : ℚ) := mul_lt_mul_of_pos_right h2 hdq
  have hA2 : k * q.den ≤ q.num.toNat := by
    rw [← hnum] at hA
    exact_mod_cast hA
  have hB2 : q.num.toNat < (k + 1) * q.den := by
    rw [← hnum] at hB
    exact_mod_cast hB
  have hle : k ≤ q.num.toNat / q.den := (Nat.le_div_iff_mul_le hd).mpr hA2
  have hlt : q.num.toNat / q.den < k + 1 := (Nat.div_lt_iff_lt_mul hd).mpr hB2
  unfold truncInt
  rw [if_pos hq]
  exact_mod_cast Nat.le_antisymm (Nat.lt_succ_iff.mp hlt) hle

lemma one_le_truncInt (q : ℚ) (h : 1 ≤ q) : 1 ≤ truncInt q := by
  have hq : 0 ≤ q := le_trans zero_le_one h
  have hd : 0 < q.den := q.den_pos
  have hdq : (0 : ℚ) < (q.den : ℚ) := by exact_mod_cast hd
  have hnum : ((q.num.toNat : ℤ) : ℚ) = (q.num : ℚ) := by
    exact_mod_cast congrArg (fun z : ℤ => (z : ℚ)) (Int.toNat_of_nonneg (Rat.num_nonneg.mpr hq))
  have hA : (1 : ℚ) * (q.den : ℚ) ≤ (q.num : ℚ) := by
    calc (1 : ℚ) * (q.den : ℚ) ≤ q * (q.den : ℚ) := mul_le_mul_of_nonneg_right h hdq.le
      _ = (q.num : ℚ) := Rat.mul_den_eq_num q
  have hA2 : 1 * q.den ≤ q.num.toNat := by
    rw [← hnum] at hA
    exact_mod_cast hA
  have hle : 1 ≤ q.num.toNat / q.den := (Nat.le_div_iff_mul_le hd).mpr hA2
  unfold truncInt
  rw [if_pos hq]
  exact_mod_cast hle

lemma rhe_intCast (n : ℤ) : rhe (n : ℚ) = n := by
  unfold rhe
  rw [Int.floor_intCast]
  simp only [sub_self]
  rw [if_pos (by norm_num)]

lemma rhe_ge_one (q : ℚ) (h : 1 ≤ q) : 1 ≤ rhe q := by
  have hfl : 1 ≤ ⌊q⌋ := by
    rw [Int.le_floor]
    exact_mod_cast h
  unfold rhe
  dsimp only
  split
  · exact hfl
  · split
    · omega
    · split
      · exact hfl
      · omega

lemma quantize4_dec4 (q : ℚ) (h : Dec4 q) : quantize4 q = q := by
  have h2 : (((q * 10000).num : ℤ) : ℚ) = q * 10000 := (Rat.den_eq_one_iff _).mp h
  unfold quantize4
  rw [show q * 10000 = (((q * 10000).num : ℤ) : ℚ) from h2.symm, rhe_intCast, h2]
  field_simp

lemma quantize4_pos (x : ℚ) (h : PRECISION ≤ x) : 0 < quantize4 x := by
  have h1 : (1 : ℚ) ≤ x * 10000 := by
    have := mul_le_mul_of_nonneg_right h (by norm_num : (0 : ℚ) ≤ 10000)
    simpa [PRECISION] using this
  have h2 : 1 ≤ rhe (x * 10000) := rhe_ge_one _ h1
  unfold quantize4
  have : (1 : ℚ) ≤ (rhe (x * 10000) : ℚ) := by exact_mod_cast h2
  positivity

/-!  List helper lemmas. -/

lemma getLast?_drop_of_lt {α : Type} (l : List α) (k : ℕ) (h : k < l.length) :
    (l.drop k).getLast? = l.getLast? := by
  rcases List.eq_nil_or_concat l with rfl | ⟨ys, a, rfl⟩
  · simp at h
  · rw [List.concat_eq_append] at h ⊢
    have hk : k ≤ ys.length := by
      simp only [List.length_append, List.length_singleton] at h
      omega
    rw [List.drop_append_of_le_length hk, List.getLast?_concat, List.getLast?_concat]

lemma capExtend_assoc (xs a b : List CandleStick) :
    capExtend (capExtend xs a) b = capExtend xs (a ++ b) := by
  simp only [capExtend]
  rw [← List.drop_append_of_le_length (Nat.sub_le (xs ++ a).length MAXLEN),
    List.drop_drop, ← List.append_assoc]
  refine congrArg (fun n => List.drop n ((xs ++ a) ++ b)) ?_
  simp only [List.length_append, List.length_drop]
  have hM : 0 < MAXLEN := by norm_num [MAXLEN]
  omega

lemma getLast?_capExtend (xs ys : List CandleStick) (h : ys ≠ []) :
    (capExtend xs ys).getLast? = ys.getLast? := by
  have hpos : 0 < ys.length := List.length_pos.mpr h
  have hlen : (xs ++ ys).length - MAXLEN < (xs ++ ys).length := by
    simp only [List.length_append, MAXLEN]
    omega
  unfold capExtend
  rw [getLast?_drop_of_lt _ _ hlen, List.getLast?_append_of_ne_nil _ h]

lemma length_capExtend (xs ys : List CandleStick) : (capExtend xs ys).length ≤ MAXLEN := by
  unfold capExtend
  rw [List.length_drop]
  have hM : 0 < MAXLEN := by norm_num [MAXLEN]
  omega

lemma capExtend_nil (xs : List CandleStick) (h : xs.length ≤ MAXLEN) : capExtend xs [] = xs := by
  have h0 : xs.length - MAXLEN = 0 := by omega
  simp only [capExtend, List.append_nil, h0, List.drop_zero]

lemma le_getLast_of_pairwise {α : Type} (f : α → ℤ) {l : List α}
    (hp : l.Pairwise (fun a b => f a ≤ f b)) {x y : α}
    (hx : x ∈ l) (hy : l.getLast? = some y) : f x ≤ f y := by
  obtain ⟨ys, rfl⟩ := List.getLast?_eq_some_iff.mp hy
  rcases List.mem_append.mp hx with h | h
  · exact (List.pairwise_append.mp hp).2.2 x h y (by simp)
  · simp only [List.mem_singleton] at h
    subst h
    exact le_refl _

lemma getLast?_filter_upclosed {α : Type} {p : α → Bool} {f : α → ℤ} :
    ∀ {l : List α}, l.Pairwise (fun a b => f a ≤ f b) →
      (∀ x y, p x = true → f x ≤ f y → p y = true) →
      l.filter p ≠ [] → (l.filter p).getLast? = l.getLast?
  | [], _, _, hne => absurd rfl hne
  | a :: tl, hp, hup, hne => by
    by_cases hpa : p a = true
    · have hall : ∀ y ∈ tl, p y = true := by
        intro y hy
        exact hup a y hpa ((List.pairwise_cons.mp hp).1 y hy)
      rw [List.filter_cons, if_pos hpa, List.filter_eq_self.mpr hall]
    · have hpa2 : ¬ (p a = true) := hpa
      have hne2 : tl.filter p ≠ [] := by
        intro e
        apply hne
        rw [List.filter_cons, if_neg hpa2, e]
      have ih := getLast?_filter_upclosed (List.Pairwise.of_cons hp) hup hne2
      rw [List.filter_cons, if_neg hpa2, ih]
      cases tl with
      | nil => exact absurd rfl hne2
      | cons b tl2 => rw [List.getLast?_cons_cons]

/-!  Evaluator invariant lemmas. -/

lemma eval_step_inv (t : OpenTrader) (b : RenkoBrick) (h : EvalInv t) :
    EvalInv (strategy_eval t b).2 ∧
    (strategy_eval t b).2.trend ≠ none ∧
    1 ≤ (strategy_eval t b).2.strength ∧
    ((strategy_eval t b).1 ≠ .hold → (strategy_eval t b).2.breakout = 0) ∧
    (t.trend = some b.direction → (strategy_eval t b).2.breakout = 0) := by
  obtain ⟨h1, h2, h3⟩ := h
  unfold strategy_eval
  cases htr : t.trend with
  | none =>
    simp only [reduceIte, Nat.not_lt_zero, if_pos rfl, ite_false, EvalInv]
    refine ⟨⟨?_, ?_, ?_⟩, ?_, ?_, ?_, ?_⟩
    · intro hx
      simp at hx
    · intro _
      omega
    · exact Nat.zero_le _
    · simp
    · omega
    · intro hx
      exact absurd rfl hx
    · intro hx
      simp at hx
  | some tr =>
    by_cases hd : b.direction = tr
    · simp only [if_pos hd, Nat.not_lt_zero, ite_false, EvalInv]
      refine ⟨⟨?_, ?_, ?_⟩, ?_, ?_, ?_, ?_⟩
      · intro hx
        simp at hx
      · intro _
        omega
      · exact Nat.zero_le _
      · simp
      · omega
      · intro hx
        exact absurd rfl hx
      · intro _
        trivial
    · simp only [if_neg hd, EvalInv]
      by_cases hc : zone_log t.strength < t.breakout + 1
      · simp only [if_pos hc]
        refine ⟨⟨?_, ?_, ?_⟩, ?_, ?_, ?_, ?_⟩
        · intro hx
          simp at hx
        · intro _
          omega
        · exact Nat.zero_le _
        · simp
        · omega
        · intro _
          trivial
        · intro hx
          exact absurd (Option.some.inj hx).symm hd
      · simp only [if_neg hc]
        have hstr : 1 ≤ t.strength := h2 (by rw [htr]; simp)
        refine ⟨⟨?_, ?_, ?_⟩, ?_, ?_, ?_, ?_⟩
        · intro hx
          simp at hx
        · intro _
          exact hstr
        · exact Nat.le_of_not_lt hc
        · simp
        · exact hstr
        · intro hx
          exact absurd rfl hx
        · intro hx
          exact absurd (Option.some.inj hx).symm hd

lemma evalFold_inv : ∀ (l : List RenkoBrick) (t : OpenTrader),
    EvalInv t → EvalInv (evalFold t l)
  | [], _, h => h
  | b :: bs, t, h => evalFold_inv bs _ (eval_step_inv t b h).1

/-!  One-step behaviour of `digest_data_point` relative to the last brick. -/

lemma digest_step (bsize : ℚ) (st : RenkoState) (row : CandleStick) (hb : 0 < bsize) :
    ((digest_data_point bsize st row).1 = [] ∧
      (digest_data_point bsize st row).2.high = st.high ∧
      (digest_data_point bsize st row).2.low = st.low) ∨
    (∃ b2, (digest_data_point bsize st row).1 = [b2] ∧
      stAfter b2 (digest_data_point bsize st row).2 ∧
      ∀ b, stAfter b st → brickPair b b2) := by
  unfold digest_data_point
  dsimp only
  split_ifs with h1 h2
  · right
    have h1q : (1 : ℚ) ≤ (row.close - st.high) / bsize := by
      rw [le_div_iff₀ hb]
      linarith
    have htr : (1 : ℚ) ≤ (truncInt ((row.close - st.high) / bsize) : ℚ) := by
      exact_mod_cast one_le_truncInt _ h1q
    have hdp : bsize ≤ (truncInt ((row.close - st.high) / bsize) : ℚ) * bsize := by
      have := mul_le_mul_of_nonneg_right htr hb.le
      linarith
    refine ⟨_, rfl, ⟨fun _ => ⟨rfl, rfl⟩, fun hdn => by simp at hdn⟩, ?_⟩
    intro b hstb
    constructor
    · intro hsame
      have hup : b.direction = .up := hsame.symm
      obtain ⟨hh, hl⟩ := hstb.1 hup
      refine ⟨hh, fun _ => ?_, fun hdn => ?_⟩
      · show b.close < st.high + (truncInt ((row.close - st.high) / bsize) : ℚ) * bsize
        rw [← hh]
        linarith
      · rw [hup] at hdn
        exact absurd hdn (by decide)
    · intro hne
      have hdown : b.direction = .down := by
        cases hbd : b.direction
        · rw [hbd] at hne
          exact absurd rfl hne
        · rfl
      obtain ⟨hh, hl⟩ := hstb.2 hdown
      exact hh
  · right
    have h1q : (1 : ℚ) ≤ (st.low - row.close) / bsize := by
      rw [le_div_iff₀ hb]
      linarith
    have htr : (1 : ℚ) ≤ (truncInt ((st.low - row.close) / bsize) : ℚ) := by
      exact_mod_cast one_le_truncInt _ h1q
    have hdp : bsize ≤ (truncInt ((st.low - row.close) / bsize) : ℚ) * bsize := by
      have := mul_le_mul_of_nonneg_right htr hb.le
      linarith
    refine ⟨_, rfl, ⟨fun hup => by simp at hup, fun _ => ⟨rfl, rfl⟩⟩, ?_⟩
    intro b hstb
    constructor
    · intro hsame
      have hdown : b.direction = .down := hsame.symm
      obtain ⟨hh, hl⟩ := hstb.2 hdown
      refine ⟨hl, fun hup => ?_, fun _ => ?_⟩
      · rw [hdown] at hup
        exact absurd hup (by decide)
      · show st.low - (truncInt ((st.low - row.close) / bsize) : ℚ) * bsize < b.close
        rw [← hl]
        linarith
    · intro hne
      have hup : b.direction = .up := by
        cases hbd : b.direction
        · rfl
        · rw [hbd] at hne
          exact absurd rfl hne
      obtain ⟨hh, hl⟩ := hstb.1 hup
      exact hl
  · left
    exact ⟨rfl, rfl, rfl⟩

lemma stAfter_of_same (b : RenkoBrick) (st st2 : RenkoState) (hh : st2.high = st.high)
    (hl : st2.low = st.low) (h : stAfter b st) : stAfter b st2 := by
  refine ⟨fun hup => ?_, fun hdn => ?_⟩
  · obtain ⟨a1, a2⟩ := h.1 hup
    exact ⟨hh.trans a1, hl.trans a2⟩
  · obtain ⟨a1, a2⟩ := h.2 hdn
    exact ⟨hh.trans a1, hl.trans a2⟩

lemma make_chain_from (bsize : ℚ) (hb : 0 < bsize) :
    ∀ (sticks : List CandleStick) (st : RenkoState) (b : RenkoBrick),
      stAfter b st → List.Chain brickPair b (make_renko_bricks bsize st sticks).1
  | [], _, _, _ => List.Chain.nil
  | s :: rest, st, b, h => by
    simp only [make_renko_bricks]
    rcases digest_step bsize st s hb with ⟨h0, hh, hl⟩ | ⟨b2, heq, hst2, hpair⟩
    · rw [h0, List.nil_append]
      exact make_chain_from bsize hb rest _ b (stAfter_of_same b st _ hh hl h)
    · rw [heq, List.singleton_append]
      exact List.Chain.cons (hpair b h) (make_chain_from bsize hb rest _ b2 hst2)

lemma make_chain (bsize : ℚ) (hb : 0 < bsize) :
    ∀ (sticks : List CandleStick) (st : RenkoState),
      List.Chain' brickPair (make_renko_bricks bsize st sticks).1
  | [], _ => trivial
  | s :: rest, st => by
    simp only [make_renko_bricks]
    rcases digest_step bsize st s hb with ⟨h0, _, _⟩ | ⟨b2, heq, hst2, _⟩
    · rw [h0, List.nil_append]
      exact make_chain bsize hb rest _
    · rw [heq, List.singleton_append]
      exact make_chain_from bsize hb rest _ b2 hst2

/-!  Structural lemmas about the tracker operations. -/

lemma strategy_eval_proj (t : OpenTrader) (b : RenkoBrick) :
    (strategy_eval t b).2.symbol = t.symbol ∧ (strategy_eval t b).2.data = t.data ∧
    (strategy_eval t b).2.brick_size = t.brick_size ∧
    (strategy_eval t b).2.renko_state = t.renko_state ∧
    (strategy_eval t b).2.bricks = t.bricks ∧ (strategy_eval t b).2.interval = t.interval := by
  unfold strategy_eval
  dsimp only
  split_ifs <;> exact ⟨rfl, rfl, rfl, rfl, rfl, rfl⟩

lemma strategy_eval_set_dr (t : OpenTrader) (d : List CandleStick) (st : RenkoState)
    (b : RenkoBrick) :
    strategy_eval { t with data := d, renko_state := st } b
      = ((strategy_eval t b).1, { (strategy_eval t b).2 with data := d, renko_state := st }) := by
  cases t
  unfold strategy_eval
  dsimp only
  split_ifs <;> rfl

lemma strategy_eval_set_bricks (t : OpenTrader) (bl : List RenkoBrick) (b : RenkoBrick) :
    strategy_eval { t with bricks := bl } b
      = ((strategy_eval t b).1, { (strategy_eval t b).2 with bricks := bl }) := by
  cases t
  unfold strategy_eval
  dsimp only
  split_ifs <;> rfl

lemma evalAll_proj (bs : List RenkoBrick) : ∀ (t : OpenTrader),
    (evalAll t bs).1.symbol = t.symbol ∧ (evalAll t bs).1.data = t.data ∧
    (evalAll t bs).1.brick_size = t.brick_size ∧
    (evalAll t bs).1.renko_state = t.renko_state ∧
    (evalAll t bs).1.bricks = t.bricks ++ bs ∧
    (evalAll t bs).1.interval = t.interval := by
  induction bs with
  | nil => intro t; simp [evalAll]
  | cons b bs ih =>
    intro t
    obtain ⟨e1, e2, e3, e4, e5, e6⟩ := strategy_eval_proj { t with bricks := t.bricks ++ [b] } b
    obtain ⟨g1, g2, g3, g4, g5, g6⟩ := ih (strategy_eval { t with bricks := t.bricks ++ [b] } b).2
    simp only [evalAll]
    refine ⟨?_, ?_, ?_, ?_, ?_, ?_⟩
    · rw [g1, e1]
    · rw [g2, e2]
    · rw [g3, e3]
    · rw [g4, e4]
    · rw [g5, e5]
      simp
    · rw [g6, e6]

lemma evalAll_set_dr (bs : List RenkoBrick) : ∀ (t : OpenTrader) (d : List CandleStick)
    (st : RenkoState),
    evalAll { t with data := d, renko_state := st } bs
      = ({ (evalAll t bs).1 with data := d, renko_state := st }, (evalAll t bs).2) := by
  induction bs with
  | nil => intro t d st; rfl
  | cons b bs ih =>
    intro t d st
    simp only [evalAll]
    have h1 : ({ t with data := d, renko_state := st } : OpenTrader).bricks = t.bricks := rfl
    rw [h1]
    have h2 : ({ { t with data := d, renko_state := st } with
        bricks := t.bricks ++ [b] } : OpenTrader)
        = { { t with bricks := t.bricks ++ [b] } with data := d, renko_state := st } := rfl
    rw [h2, strategy_eval_set_dr, ih]

lemma evalAll_append (a : List RenkoBrick) : ∀ (t : OpenTrader) (b : List RenkoBrick),
    evalAll t (a ++ b)
      = ((evalAll (evalAll t a).1 b).1, (evalAll t a).2 ++ (evalAll (evalAll t a).1 b).2) := by
  induction a with
  | nil => intro t b; simp [evalAll]
  | cons x xs ih =>
    intro t b
    simp only [List.cons_append, evalAll, List.append_eq]
    rw [ih]

lemma make_renko_bricks_append (bsize : ℚ) (a : List CandleStick) :
    ∀ (st : RenkoState) (b : List CandleStick),
    make_renko_bricks bsize st (a ++ b)
      = ((make_renko_bricks bsize st a).1
           ++ (make_renko_bricks bsize (make_renko_bricks bsize st a).2 b).1,
         (make_renko_bricks bsize (make_renko_bricks bsize st a).2 b).2) := by
  induction a with
  | nil => intro st b; simp [make_renko_bricks]
  | cons s rest ih =>
    intro st b
    simp only [List.cons_append, make_renko_bricks, List.append_eq]
    rw [ih]
    simp

set_option maxRecDepth 8000 in
lemma processFeed_proj (t : OpenTrader) (ns : List CandleStick) :
    (processFeed t ns).1.symbol = t.symbol ∧
    (processFeed t ns).1.data = capExtend t.data ns ∧
    (processFeed t ns).1.brick_size = t.brick_size ∧
    (processFeed t ns).1.renko_state = (make_renko_bricks t.brick_size t.renko_state ns).2 ∧
    (processFeed t ns).1.bricks = t.bricks ++ (make_renko_bricks t.brick_size t.renko_state ns).1 ∧
    (processFeed t ns).1.interval = t.interval := by
  obtain ⟨e1, e2, e3, e4, e5, e6⟩ :=
    evalAll_proj (make_renko_bricks t.brick_size t.renko_state ns).1
      { t with data := capExtend t.data ns,
               renko_state := (make_renko_bricks t.brick_size t.renko_state ns).2 }
  exact ⟨e1, e2, e3, e4, e5, e6⟩

lemma evalAll_brick_size (t : OpenTrader) (bs : List RenkoBrick) :
    (evalAll t bs).1.brick_size = t.brick_size := (evalAll_proj bs t).2.2.1

lemma evalAll_data (t : OpenTrader) (bs : List RenkoBrick) :
    (evalAll t bs).1.data = t.data := (evalAll_proj bs t).2.1

lemma evalAll_renko_state (t : OpenTrader) (bs : List RenkoBrick) :
    (evalAll t bs).1.renko_state = t.renko_state := (evalAll_proj bs t).2.2.2.1

lemma processFeed_getLast? (t : OpenTrader) (ns : List CandleStick) (hne : ns ≠ []) :
    (processFeed t ns).1.data.getLast? = ns.getLast? := by
  obtain ⟨_, e2, _, _, _, _⟩ := processFeed_proj t ns
  rw [e2, getLast?_capExtend _ _ hne]

lemma processFeed_nil (t : OpenTrader) (h : t.data.length ≤ MAXLEN) :
    processFeed t [] = (t, []) := by
  simp only [processFeed, make_renko_bricks, capExtend_nil _ h, evalAll]

lemma feed_nil_initialized (t : OpenTrader) (l0 : CandleStick)
    (h : t.data.getLast? = some l0) : feed t [] = .ok (t, []) := by
  simp [feed, h]

lemma feed_initialized_keep_all (t : OpenTrader) (l0 : CandleStick)
    (sticks : List CandleStick) (h : t.data.getLast? = some l0) (hne : sticks ≠ [])
    (hall : ∀ s ∈ sticks, l0.timestamp < s.timestamp) :
    feed t sticks = .ok (processFeed t sticks) := by
  simp only [feed, h]
  have hf : sticks.filter (fun s => decide (l0.timestamp < s.timestamp)) = sticks :=
    List.filter_eq_self.mpr (fun a ha => by simpa using hall a ha)
  rw [hf, if_neg (by simpa [List.isEmpty_iff] using hne)]

lemma feed_initialized_stale (t : OpenTrader) (l0 : CandleStick)
    (sticks : List CandleStick) (h : t.data.getLast? = some l0)
    (hstale : ∀ s ∈ sticks, s.timestamp ≤ l0.timestamp) :
    feed t sticks = .ok (t, []) := by
  simp only [feed, h]
  have hf : sticks.filter (fun s => decide (l0.timestamp < s.timestamp)) = [] :=
    List.filter_eq_nil_iff.mpr (fun a ha => by simpa using not_lt.mpr (hstale a ha))
  rw [hf]
  simp

lemma processFeed_append (t : OpenTrader) (a b : List CandleStick) :
    processFeed t (a ++ b)
      = ((processFeed (processFeed t a).1 b).1,
         (processFeed t a).2 ++ (processFeed (processFeed t a).1 b).2) := by
  simp only [processFeed, make_renko_bricks_append, evalAll_append, evalAll_set_dr,
    capExtend_assoc, evalAll_brick_size, evalAll_data, evalAll_renko_state]

/-!  Claim theorems. -/

/-- C1 (counterexample): with `brick_size = 1` and boundary `high = 100`, a
single bar closing at `102` (two brick sizes above the boundary) emits ONE
brick, not the two bricks the claim requires. -/
theorem digest_jump_two_sizes_cex :
    (digest_data_point 1 seededState jumpBar).1.length = 1 ∧
    (digest_data_point 1 seededState jumpBar).1.length ≠ 2 := by
  norm_num [digest_data_point, truncInt, seededState, jumpBar]

/-- C1 (amended): a close at least `k` (and less than `k+1`) brick sizes
beyond the boundary emits exactly ONE brick spanning all `k` steps: an UP
brick with `open = state.high` and `close = state.high + k·brick_size`, or
(for a state with `low ≤ high`) a DOWN brick with `open = state.low` and
`close = state.low − k·brick_size`. -/
theorem digest_jump_emits_one_brick (bsize : ℚ) (st : RenkoState) (row : CandleStick)
    (k : ℕ) (hb : 0 < bsize) (hk : 1 ≤ k) :
    (st.high + k * bsize ≤ row.close → row.close < st.high + (k + 1) * bsize →
      (digest_data_point bsize st row).1 =
        [{ time := st.last_index, «open» := st.high, high := max st.int_high row.high,
           low := min st.int_low row.low, close := st.high + k * bsize,
           direction := .up }]) ∧
    (st.low ≤ st.high → row.close ≤ st.low - k * bsize →
      st.low - (k + 1) * bsize < row.close →
      (digest_data_point bsize st row).1 =
        [{ time := st.last_index, «open» := st.low, high := max st.int_high row.high,
           low := min st.int_low row.low, close := st.low - k * bsize,
           direction := .down }]) := by
  have hkq : (1 : ℚ) ≤ (k : ℚ) := by exact_mod_cast hk
  have hkb : bsize ≤ (k : ℚ) * bsize := le_mul_of_one_le_left hb.le hkq
  constructor
  · intro h1 h2
    have hg : st.high + bsize ≤ row.close := by linarith
    have hle : ((k : ℕ) : ℚ) ≤ (row.close - st.high) / bsize := by
      rw [le_div_iff₀ hb]
      linarith
    have hlt : (row.close - st.high) / bsize < ((k : ℕ) : ℚ) + 1 := by
      rw [div_lt_iff₀ hb]
      linarith
    have htr := truncInt_eq _ k hle hlt
    unfold digest_data_point
    rw [if_pos hg]
    dsimp only
    rw [htr]
    norm_num
  · intro hlh h1 h2
    have hng : ¬ (st.high + bsize ≤ row.close) := by
      intro hcon
      linarith
    have hg : row.close ≤ st.low - bsize := by linarith
    have hle : ((k : ℕ) : ℚ) ≤ (st.low - row.close) / bsize := by
      rw [le_div_iff₀ hb]
      linarith
    have hlt : (st.low - row.close) / bsize < ((k : ℕ) : ℚ) + 1 := by
      rw [div_lt_iff₀ hb]
      linarith
    have htr := truncInt_eq _ k hle hlt
    unfold digest_data_point
    rw [if_neg hng, if_pos hg]
    dsimp only
    rw [htr]
    norm_num

/-- C1 witness: the amended theorem applied at `brick_size = 1`, boundary
`100`, close `102` (`k = 2`). -/
theorem digest_jump_emits_one_brick_witness :
    (digest_data_point 1 seededState jumpBar).1 =
      [{ time := 0, «open» := 100, high := 102, low := 100, close := 102,
         direction := .up }] := by
  have h := (digest_jump_emits_one_brick 1 seededState jumpBar 2 (by norm_num)
    (by norm_num)).1 (by norm_num [seededState, jumpBar]) (by norm_num [seededState, jumpBar])
  rw [h]
  norm_num [seededState, jumpBar, max_def, min_def]

/-- C2: from `trend = UP, strength = 9, breakout = 0` (allowed zone
`zone(9) = 1`), one contrary DOWN brick holds (`breakout = 1`), a second
contrary brick flips the trend to DOWN with `strength = 2, breakout = 0`,
returning the new trend's signal (SELL). -/
theorem reversal_hysteresis_strength_nine :
    zone_log 9 = 1 ∧
    strategy_eval strongUpTrader downBrick
      = (.hold, { strongUpTrader with breakout := 1 }) ∧
    strategy_eval { strongUpTrader with breakout := 1 } downBrick
      = (.sell, { strongUpTrader with trend := some .down, strength := 2, breakout := 0 }) :=
  ⟨by decide, rfl, rfl⟩

/-- C4 (code bug evidence): a freshly constructed tracker fed an empty bar
list reaches `statistics.mean([])`, which raises, instead of the no-op the
claim requires. -/
theorem feed_empty_fresh_raises :
    feed (mkTracker "DPROo") []
      = .error "StatisticsError: mean requires at least one data point" := rfl

/-- C5 (counterexample): the first-ever brick leaves `strength = 1`, not the
claimed `strength = 0` (the brick matches the just-set trend, so the
confirmation branch increments strength). -/
theorem first_brick_strength_cex :
    (strategy_eval (mkTracker "A") upBrick).2.strength ≠ 0 := by decide

/-- C5 (amended): on the first-ever brick (trend unset, zeroed counters) the
evaluator sets `trend` to the brick's direction, ends with `strength = 1`
and `breakout = 0`, and returns HOLD. -/
theorem first_brick_sets_trend (t : OpenTrader) (b : RenkoBrick) (h0 : t.trend = none)
    (hs : t.strength = 0) (hb : t.breakout = 0) :
    strategy_eval t b
      = (.hold, { t with trend := some b.direction, strength := 1, breakout := 0 }) := by
  simp [strategy_eval, h0, hs, hb, zone_log]

/-- C5 witness: the amended theorem applied to a fresh tracker and an UP
brick. -/
theorem first_brick_sets_trend_witness :
    strategy_eval (mkTracker "A") upBrick
      = (.hold, { mkTracker "A" with trend := some .up, strength := 1, breakout := 0 }) :=
  first_brick_sets_trend (mkTracker "A") upBrick rfl rfl rfl

/-- C8 (counterexample): at a trend reversal the new brick reopens at the
previous brick's OPEN, so `open (i+1) = close i` fails for that adjacent
pair (UP brick 100→101 followed by DOWN brick 100→99). -/
theorem brick_adjacency_reversal_cex :
    ¬ List.Chain' (fun b b2 => b2.«open» = b.close)
      (make_renko_bricks 1 seededState [upBar, downBar]).1 := by
  norm_num [make_renko_bricks, digest_data_point, seededState, upBar, downBar,
    truncInt, List.Chain']

/-- C10: after any `strategy_eval` call on a state reachable from a fresh
evaluator, the trend is set, `strength ≥ 1`, `breakout ≤ zone(strength)`,
and `breakout = 0` both after any non-HOLD signal and after any brick that
confirms the pre-call trend. -/
theorem strategy_eval_invariant (t0 : OpenTrader) (l : List RenkoBrick) (b : RenkoBrick)
    (h0 : t0.trend = none) (hs : t0.strength = 0) (hbk : t0.breakout = 0) :
    (strategy_eval (evalFold t0 l) b).2.trend ≠ none ∧
    1 ≤ (strategy_eval (evalFold t0 l) b).2.strength ∧
    (strategy_eval (evalFold t0 l) b).2.breakout
      ≤ zone_log (strategy_eval (evalFold t0 l) b).2.strength ∧
    ((strategy_eval (evalFold t0 l) b).1 ≠ .hold →
      (strategy_eval (evalFold t0 l) b).2.breakout = 0) ∧
    ((evalFold t0 l).trend = some b.direction →
      (strategy_eval (evalFold t0 l) b).2.breakout = 0) := by
  have hinv0 : EvalInv t0 :=
    ⟨fun _ => ⟨hs, hbk⟩, fun hn => absurd h0 hn, by rw [hbk]; exact Nat.zero_le _⟩
  have hinv := evalFold_inv l t0 hinv0
  obtain ⟨hI, p1, p2, p3, p4⟩ := eval_step_inv (evalFold t0 l) b hinv
  exact ⟨p1, p2, hI.2.2, p3, p4⟩

/-- C10 witness: the invariant theorem applied to a fresh tracker, the empty
history, and an UP brick. -/
theorem strategy_eval_invariant_witness :
    (strategy_eval (evalFold (mkTracker "A") []) upBrick).2.trend ≠ none ∧
    1 ≤ (strategy_eval (evalFold (mkTracker "A") []) upBrick).2.strength ∧
    (strategy_eval (evalFold (mkTracker "A") []) upBrick).2.breakout
      ≤ zone_log (strategy_eval (evalFold (mkTracker "A") []) upBrick).2.strength ∧
    ((strategy_eval (evalFold (mkTracker "A") []) upBrick).1 ≠ .hold →
      (strategy_eval (evalFold (mkTracker "A") []) upBrick).2.breakout = 0) ∧
    ((evalFold (mkTracker "A") []).trend = some upBrick.direction →
      (strategy_eval (evalFold (mkTracker "A") []) upBrick).2.breakout = 0) :=
  strategy_eval_invariant (mkTracker "A") [] upBrick rfl rfl rfl

lemma map_id_of_mem {α : Type} {f : α → α} : ∀ {l : List α}, (∀ x ∈ l, f x = x) → l.map f = l
  | [], _ => rfl
  | x :: xs, h => by
    rw [List.map_cons, h x (by simp), map_id_of_mem (fun y hy => h y (by simp [hy]))]

lemma quantizeStick_id (s : CandleStick)
    (h : Dec4 s.«open» ∧ Dec4 s.high ∧ Dec4 s.low ∧ Dec4 s.close ∧ Dec4 s.volume) :
    quantizeStick s = s := by
  obtain ⟨h1, h2, h3, h4, h5⟩ := h
  exact CandleStick.ext rfl (quantize4_dec4 _ h1) (quantize4_dec4 _ h2)
    (quantize4_dec4 _ h3) (quantize4_dec4 _ h4) (quantize4_dec4 _ h5) rfl

lemma quantizeBrick_id (b : RenkoBrick)
    (h : Dec4 b.«open» ∧ Dec4 b.high ∧ Dec4 b.low ∧ Dec4 b.close) :
    quantizeBrick b = b := by
  obtain ⟨h1, h2, h3, h4⟩ := h
  exact RenkoBrick.ext rfl (quantize4_dec4 _ h1) (quantize4_dec4 _ h2)
    (quantize4_dec4 _ h3) (quantize4_dec4 _ h4) rfl

lemma quantizeState_id (st : RenkoState)
    (h : Dec4 st.high ∧ Dec4 st.low ∧ Dec4 st.int_high ∧ Dec4 st.int_low ∧
      Dec4 st.abs_high ∧ Dec4 st.abs_low) :
    quantizeState st = st := by
  obtain ⟨h1, h2, h3, h4, h5, h6⟩ := h
  exact RenkoState.ext rfl (quantize4_dec4 _ h1) (quantize4_dec4 _ h2)
    (quantize4_dec4 _ h3) (quantize4_dec4 _ h4) (quantize4_dec4 _ h5) (quantize4_dec4 _ h6)

lemma quantizeTracker_id (t : OpenTrader) (h : Dec4Tracker t) : quantizeTracker t = t := by
  obtain ⟨hbs, hdat, hbrk, hs1, hs2, hs3, hs4, hs5, hs6⟩ := h
  exact OpenTrader.ext rfl (map_id_of_mem (fun s hs => quantizeStick_id s (hdat s hs)))
    (quantize4_dec4 _ hbs) (quantizeState_id _ ⟨hs1, hs2, hs3, hs4, hs5, hs6⟩)
    (map_id_of_mem (fun b hb => quantizeBrick_id b (hbrk b hb))) rfl rfl rfl rfl

/-- C3 (counterexample): a tracker holding a bar whose prices need 5 decimal
places is NOT restored decimal-for-decimal — the JSON encoder quantizes
every Decimal to `PRECISION` (4 places) on write. -/
theorem persist_roundtrip_cex : persistRoundTrip fineGrainTracker ≠ some fineGrainTracker := by
  norm_num [persistRoundTrip, quantizeTracker, quantizeStick, quantizeState, quantize4, rhe,
    fineGrainTracker, mkTracker, PRECISION]

/-- C3 (amended): when every decimal field of the tracker is representable
at `PRECISION` (a multiple of 0.0001), the write/read round trip restores
the tracker exactly, and feeding the restored tracker an empty bar list
returns the empty signal list. -/
theorem persist_roundtrip_exact_at_precision (t : OpenTrader) (hne : t.data ≠ [])
    (h4 : Dec4Tracker t) :
    persistRoundTrip t = some t ∧ feed t [] = .ok (t, []) := by
  constructor
  · unfold persistRoundTrip
    rw [if_neg (by simpa [List.isEmpty_iff] using hne), quantizeTracker_id t h4]
  · rcases hgl : t.data.getLast? with _ | l0
    · rw [List.getLast?_eq_none_iff] at hgl
      exact absurd hgl hne
    · exact feed_nil_initialized t l0 hgl

/-- C3 witness: the amended round-trip theorem applied to a tracker holding
one bar with 4-decimal-place prices. -/
theorem persist_roundtrip_exact_at_precision_witness :
    persistRoundTrip coarseTracker = some coarseTracker ∧
    feed coarseTracker [] = .ok (coarseTracker, []) :=
  persist_roundtrip_exact_at_precision coarseTracker (by simp [coarseTracker, mkTracker])
    (by norm_num [Dec4Tracker, Dec4, coarseTracker, mkTracker, PRECISION])

/-- C9: `brick_size` is computed exactly once — on the first feed of a fresh
tracker it is half the mean high-low range of that feed's bars, floored at
the minimum tick `PRECISION` and quantized to 4 decimal places; every feed
on a tracker that already holds bars leaves `brick_size` unchanged. -/
theorem brick_size_set_once (t : OpenTrader) (sticks : List CandleStick)
    (t1 : OpenTrader) (s1 : List MarketSignal) (h : feed t sticks = .ok (t1, s1)) :
    (t.data = [] → t1.brick_size
        = quantize4 (max ((sticks.map (fun x => x.high - x.low)).sum
            / ((sticks.map (fun x => x.high - x.low)).length : ℚ) / 2) PRECISION)) ∧
    (t.data ≠ [] → t1.brick_size = t.brick_size) := by
  unfold feed at h
  split at h
  · rename_i l0 hgl
    have hdne : t.data ≠ [] := by
      intro e
      rw [e] at hgl
      simp at hgl
    refine ⟨fun e => absurd e hdne, fun _ => ?_⟩
    dsimp only at h
    split at h
    · simp only [Except.ok.injEq, Prod.mk.injEq] at h
      rw [← h.1]
    · simp only [Except.ok.injEq] at h
      have h1 := congrArg Prod.fst h
      dsimp only at h1
      rw [← h1]
      exact (processFeed_proj t _).2.2.1
  · rename_i hgl
    have hde : t.data = [] := List.getLast?_eq_none_iff.mp hgl
    split at h
    · simp at h
    · rename_i first rest
      refine ⟨fun _ => ?_, fun hne => absurd hde hne⟩
      simp only [Except.ok.injEq] at h
      have h1 := congrArg Prod.fst h
      dsimp only at h1
      rw [← h1]
      exact (processFeed_proj _ _).2.2.1

/-- C9 witness: calibrating a fresh tracker from one bar of range 2 yields
`brick_size = quantize4(max(1, PRECISION)) = 1`, as the theorem's fresh-feed
conjunct states. -/
theorem brick_size_set_once_witness :
    calibratedTracker.brick_size
      = quantize4 (max ((([splitBarA]).map (fun x => x.high - x.low)).sum
          / ((([splitBarA]).map (fun x => x.high - x.low)).length : ℚ) / 2) PRECISION) :=
  (brick_size_set_once (mkTracker "W") [splitBarA] calibratedTracker []
    (by norm_num [feed, processFeed, capExtend, make_renko_bricks, digest_data_point,
      evalAll, mkTracker, calibratedTracker, splitBarA, quantize4, rhe, PRECISION,
      MAXLEN, truncInt])).1 rfl

/-- C8 (amended): among the bricks emitted by one `feed` call, same-direction
neighbours chain exactly (`open (i+1) = close i`, closes strictly increasing
for UP pairs and strictly decreasing for DOWN pairs); at a direction change
the new brick reopens at the previous brick's open instead. -/
theorem feed_bricks_adjacency (t : OpenTrader) (sticks : List CandleStick)
    (t1 : OpenTrader) (s1 : List MarketSignal) (hb : 0 < t.brick_size)
    (h : feed t sticks = .ok (t1, s1)) :
    List.Chain' brickPair (t1.bricks.drop t.bricks.length) := by
  unfold feed at h
  split at h
  · rename_i l0 hgl
    dsimp only at h
    split at h
    · simp only [Except.ok.injEq, Prod.mk.injEq] at h
      rw [← h.1, List.drop_length]
      trivial
    · simp only [Except.ok.injEq] at h
      have h1 := congrArg Prod.fst h
      dsimp only at h1
      rw [← h1, (processFeed_proj t _).2.2.2.2.1, List.drop_left]
      exact make_chain t.brick_size hb _ _
  · rename_i hgl
    split at h
    · simp at h
    · rename_i first rest
      simp only [Except.ok.injEq] at h
      have h1 := congrArg Prod.fst h
      dsimp only at h1
      rw [← h1, (processFeed_proj _ _).2.2.2.2.1, List.drop_left]
      refine make_chain _ ?_ _ _
      exact quantize4_pos _ (le_max_right _ _)

/-- C8 witness: the adjacency theorem applied to a tracker with positive
brick size fed an empty bar list (no new bricks, trivially chained). -/
theorem feed_bricks_adjacency_witness :
    List.Chain' brickPair (coarseTracker.bricks.drop coarseTracker.bricks.length) :=
  feed_bricks_adjacency coarseTracker [] coarseTracker []
    (by norm_num [coarseTracker, mkTracker, PRECISION]) rfl

/-- C7: feeding the same ascending non-empty bar sequence twice makes the
second `feed` call a no-op — it returns no signals and leaves the tracker
(bar buffer, renko state, brick size, bricks, evaluator state) unchanged,
because every bar is filtered out by the timestamp filter. -/
theorem feed_idempotent_second_call (t : OpenTrader) (bars : List CandleStick)
    (t1 : OpenTrader) (s1 : List MarketSignal) (hne : bars ≠ [])
    (hasc : bars.Pairwise (fun a b => a.timestamp ≤ b.timestamp))
    (h : feed t bars = .ok (t1, s1)) :
    feed t1 bars = .ok (t1, []) := by
  suffices hsuf : ∃ m, t1.data.getLast? = some m ∧ ∀ s ∈ bars, s.timestamp ≤ m.timestamp by
    obtain ⟨m, hm, hall⟩ := hsuf
    exact feed_initialized_stale t1 m bars hm hall
  unfold feed at h
  split at h
  · rename_i l0 hgl
    dsimp only at h
    split at h
    · rename_i hemp
      simp only [Except.ok.injEq, Prod.mk.injEq] at h
      have hfe : bars.filter (fun s => decide (l0.timestamp < s.timestamp)) = [] := by
        simpa [List.isEmpty_iff] using hemp
      refine ⟨l0, by rw [← h.1]; exact hgl, fun s hs => ?_⟩
      have := List.filter_eq_nil_iff.mp hfe s hs
      simp at this
      omega
    · rename_i hemp
      simp only [Except.ok.injEq] at h
      have h1 := congrArg Prod.fst h
      dsimp only at h1
      have hnsne : bars.filter (fun s => decide (l0.timestamp < s.timestamp)) ≠ [] := by
        intro e
        rw [e] at hemp
        simp at hemp
      have hlast : t1.data.getLast?
          = (bars.filter (fun s => decide (l0.timestamp < s.timestamp))).getLast? := by
        rw [← h1]
        exact processFeed_getLast? t _ hnsne
      have hfl : (bars.filter (fun s => decide (l0.timestamp < s.timestamp))).getLast?
          = bars.getLast? := by
        refine getLast?_filter_upclosed hasc ?_ hnsne
        intro x y hx hxy
        simp only [decide_eq_true_eq] at hx ⊢
        omega
      obtain ⟨m, hm⟩ : ∃ m, bars.getLast? = some m :=
        ⟨bars.getLast hne, List.getLast?_eq_getLast bars hne⟩
      exact ⟨m, by rw [hlast, hfl, hm],
        fun s hs => le_getLast_of_pairwise (fun c => c.timestamp) hasc hs hm⟩
  · rename_i hgl
    split at h
    · exact absurd rfl hne
    · rename_i first rest
      simp only [Except.ok.injEq] at h
      have h1 := congrArg Prod.fst h
      dsimp only at h1
      have hlast : t1.data.getLast? = (first :: rest).getLast? := by
        rw [← h1]
        exact processFeed_getLast? _ _ (by simp)
      obtain ⟨m, hm⟩ : ∃ m, (first :: rest).getLast? = some m :=
        ⟨(first :: rest).getLast (by simp), List.getLast?_eq_getLast _ (by simp)⟩
      exact ⟨m, by rw [hlast, hm],
        fun s hs => le_getLast_of_pairwise (fun c => c.timestamp) hasc hs hm⟩

/-- C7 witness: a fresh tracker fed one bar, then fed the same bar again —
the second call returns no signals and leaves the tracker unchanged. -/
theorem feed_idempotent_second_call_witness :
    feed calibratedTracker [splitBarA] = .ok (calibratedTracker, []) :=
  feed_idempotent_second_call (mkTracker "W") [splitBarA] calibratedTracker [] (by simp)
    (by simp)
    (by norm_num [feed, processFeed, capExtend, make_renko_bricks, digest_data_point,
      evalAll, mkTracker, calibratedTracker, splitBarA, quantize4, rhe, PRECISION,
      MAXLEN, truncInt])


/-- C6 (counterexample): feeding two bars to a fresh tracker in one call
calibrates `brick_size` from both bars (1.5, no brick emitted), while
feeding them as two calls calibrates from the first bar alone (1.0, one
brick emitted) — the brick sequences differ. -/
theorem feed_split_calibration_cex :
    bricksCount (feed (mkTracker "A") [splitBarA, splitBarB])
      ≠ bricksCount (feedChunks (mkTracker "A") [[splitBarA], [splitBarB]]) := by
  have h1 : bricksCount (feed (mkTracker "A") [splitBarA, splitBarB]) = some 0 := by
    norm_num [feed, processFeed, capExtend, make_renko_bricks, digest_data_point, evalAll,
      bricksCount, mkTracker, splitBarA, splitBarB, quantize4, rhe, PRECISION, MAXLEN, truncInt]
  have h2 : bricksCount (feedChunks (mkTracker "A") [[splitBarA], [splitBarB]]) = some 1 := by
    norm_num [feedChunks, feed, processFeed, capExtend, make_renko_bricks, digest_data_point,
      evalAll, strategy_eval, zone_log, REVERSE, MarketTrend.as_signal, bricksCount,
      mkTracker, splitBarA, splitBarB, quantize4, rhe, PRECISION, MAXLEN, truncInt]
  rw [h1, h2]
  simp

/-- C6 (amended): once the tracker is initialized (it already holds at least
one bar, so no recalibration can occur), feeding strictly-ascending newer
bars in one call or split arbitrarily into successive calls produces the
same final tracker — same bricks, same renko state — and the concatenated
signals. -/
theorem feed_split_equivalence (t : OpenTrader) (chunks : List (List CandleStick))
    (l0 : CandleStick) (hl : t.data.getLast? = some l0)
    (hp : chunks.flatten.Pairwise (fun a b => a.timestamp < b.timestamp))
    (hgt : ∀ s ∈ chunks.flatten, l0.timestamp < s.timestamp) :
    feedChunks t chunks = feed t chunks.flatten := by
  induction chunks generalizing t l0 with
  | nil =>
    rw [show ([] : List (List CandleStick)).flatten = [] from rfl,
      feed_nil_initialized t l0 hl]
    rfl
  | cons c rest ih =>
    cases c with
    | nil =>
      have hjoin : (([] : List CandleStick) :: rest).flatten = rest.flatten := by simp
      rw [hjoin] at hp hgt ⊢
      have hstep : feed t [] = .ok (t, []) := feed_nil_initialized t l0 hl
      have hIH : feedChunks t rest = feed t rest.flatten := ih t l0 hl hp hgt
      simp only [feedChunks, hstep]
      rw [hIH]
      cases hfr : feed t rest.flatten with
      | error e => rfl
      | ok p => simp
    | cons c0 ctl =>
      have hcne : (c0 :: ctl : List CandleStick) ≠ [] := by simp
      have hjoin : ((c0 :: ctl) :: rest).flatten = (c0 :: ctl) ++ rest.flatten := by simp
      rw [hjoin] at hp hgt ⊢
      have hallc : ∀ s ∈ c0 :: ctl, l0.timestamp < s.timestamp := fun s hs =>
        hgt s (List.mem_append.mpr (Or.inl hs))
      have h1 : feed t (c0 :: ctl) = .ok (processFeed t (c0 :: ctl)) :=
        feed_initialized_keep_all t l0 _ hl hcne hallc
      obtain ⟨hpc, hpj, hcross⟩ := List.pairwise_append.mp hp
      have hm : (c0 :: ctl).getLast? = some ((c0 :: ctl).getLast hcne) :=
        List.getLast?_eq_getLast _ hcne
      have hmm : (c0 :: ctl).getLast hcne ∈ c0 :: ctl := List.getLast_mem hcne
      have hlast1 :
          (processFeed t (c0 :: ctl)).1.data.getLast? = some ((c0 :: ctl).getLast hcne) := by
        rw [processFeed_getLast? t _ hcne, hm]
      have hgt1 : ∀ s ∈ rest.flatten, ((c0 :: ctl).getLast hcne).timestamp < s.timestamp :=
        fun s hs => hcross _ hmm s hs
      have hIH : feedChunks (processFeed t (c0 :: ctl)).1 rest
          = feed (processFeed t (c0 :: ctl)).1 rest.flatten :=
        ih _ _ hlast1 hpj hgt1
      have hlen1 : (processFeed t (c0 :: ctl)).1.data.length ≤ MAXLEN := by
        rw [(processFeed_proj t _).2.1]
        exact length_capExtend _ _
      have h2 : feed (processFeed t (c0 :: ctl)).1 rest.flatten
          = .ok (processFeed (processFeed t (c0 :: ctl)).1 rest.flatten) := by
        cases hrj : rest.flatten with
        | nil =>
          rw [feed_nil_initialized _ _ hlast1, processFeed_nil _ hlen1]
        | cons j0 jtl =>
          exact feed_initialized_keep_all _ _ _ hlast1 (by simp)
            (fun s hs => hgt1 s (hrj ▸ hs))
      have hallcj : ∀ s ∈ (c0 :: ctl) ++ rest.flatten, l0.timestamp < s.timestamp := hgt
      have h3 : feed t ((c0 :: ctl) ++ rest.flatten)
          = .ok (processFeed t ((c0 :: ctl) ++ rest.flatten)) :=
        feed_initialized_keep_all t l0 _ hl (by simp) hallcj
      simp only [feedChunks, h1]
      rw [hIH, h2, h3, processFeed_append]

/-- C6 witness: the split-equivalence theorem applied to an initialized
tracker and a single newer bar fed as one chunk. -/
theorem feed_split_equivalence_witness :
    feedChunks calibratedTracker [[splitBarB]] = feed calibratedTracker [splitBarB] :=
  feed_split_equivalence calibratedTracker [[splitBarB]] splitBarA rfl
    (by simp)
    (by
      intro s hs
      simp at hs
      subst hs
      norm_num [splitBarA, splitBarB])
